import Mathlib

/-!
Verification of the competency-framework reformatting tool.

The repository contains two near-duplicate variants of the converter:
`batch_converter.js` and a second unnamed source file (referred to here as
`Part000`).  Each variant is embedded in its own namespace, faithfully to its
own source.  Pure string manipulation from JavaScript (trim, split on
whitespace, `toUpperCase`, regular-expression tests) is modelled on the
character list underlying Lean's `String`; the modelled character classes
follow the JavaScript semantics (`\s`, `[A-Za-z]`, `\d`, `[^a-zA-Z0-9]`)
exactly on the Unicode code points involved.
-/

/-- One parsed input record: a `(name, description)` pair, both already
trimmed by the upstream tabular reader. -/
structure Record where
  name : String
  description : String
deriving Repr, DecidableEq, Inhabited

/-- One output row of the fixed 14-column target schema.  All fields are
kept as strings; the JavaScript sources store the number `1` in
`Description format` (and in the framework row's `Is framework`), which the
serializer renders via `String(...)` as `"1"` - we model those fields
directly by their rendered string.  Fields a variant never assigns are
`undefined` in JavaScript and render as `""`; we model them as `""`. -/
structure OutputRow where
  parentIdNumber : String
  idNumber : String
  shortName : String
  description : String
  descriptionFormat : String
  scaleValues : String
  scaleConfiguration : String
  ruleType : String
  ruleOutcome : String
  ruleConfig : String
  crossReferenced : String
  exportedId : String
  isFramework : String
  taxonomy : String
deriving Repr, DecidableEq, Inhabited

/-- JavaScript `\s` character class (whitespace as matched by `/\s/` and
removed by `String.prototype.trim`). -/
def jsIsWhitespace (c : Char) : Bool :=
  let n := c.toNat
  n == 0x20 || n == 0x09 || n == 0x0A || n == 0x0B || n == 0x0C || n == 0x0D ||
  n == 0xA0 || n == 0x1680 || (0x2000 ≤ n && n ≤ 0x200A) ||
  n == 0x2028 || n == 0x2029 || n == 0x202F || n == 0x205F ||
  n == 0x3000 || n == 0xFEFF

/-- JavaScript character class `[A-Za-z]`. -/
def jsIsAsciiAlpha (c : Char) : Bool :=
  (0x41 ≤ c.toNat && c.toNat ≤ 0x5A) || (0x61 ≤ c.toNat && c.toNat ≤ 0x7A)

/-- JavaScript character class `\d`, i.e. `[0-9]`. -/
def jsIsDigit (c : Char) : Bool :=
  0x30 ≤ c.toNat && c.toNat ≤ 0x39

/-- JavaScript character class `[a-zA-Z0-9]` (the characters kept by
`w.replace(/[^a-zA-Z0-9]/g, '')`). -/
def jsIsAlnum (c : Char) : Bool :=
  jsIsAsciiAlpha c || jsIsDigit c

/-- JavaScript `String.prototype.trim`: strip leading and trailing `\s`. -/
def jsTrim (s : String) : String :=
  ⟨((s.data.dropWhile jsIsWhitespace).reverse.dropWhile jsIsWhitespace).reverse⟩

/-- JavaScript `str.split(/\s+/)` applied to a trimmed string: the maximal
runs of non-whitespace characters, in order.  (For the empty string
JavaScript returns `[""]` where this returns `[]`; both behave identically
in the acronym loop below, since an empty fragment contributes nothing.) -/
def jsWords : List Char → List Char → List (List Char)
  | [], acc => if acc.isEmpty then [] else [acc.reverse]
  | c :: cs, acc =>
    if jsIsWhitespace c then
      if acc.isEmpty then jsWords cs [] else acc.reverse :: jsWords cs []
    else jsWords cs (c :: acc)

/-- The word list of a name: `name.split(/\s+/)` after trimming. -/
def wordsOf (s : String) : List (List Char) :=
  jsWords (jsTrim s).data []

/-- JavaScript regular expression `^[A-Za-z]+\d+$`: one or more ASCII
letters followed by one or more ASCII digits, spanning the whole string.
Because the letter and digit classes are disjoint, the decomposition is
unique and is computed by the maximal letter prefix. -/
def testLettersDigits (cs : List Char) : Bool :=
  let letters := cs.takeWhile jsIsAsciiAlpha
  let rest := cs.dropWhile jsIsAsciiAlpha
  !letters.isEmpty && !rest.isEmpty && rest.all jsIsDigit

/-- One iteration of the acronym loop of `generateCode`: strip
non-alphanumeric characters from the word (`w.replace(/[^a-zA-Z0-9]/g,
'')`) and, if anything remains, push the uppercased first character onto
the accumulator string (`code += cleanW[0].toUpperCase()`). -/
def acronymStep (acc : String) (w : List Char) : String :=
  match w.filter jsIsAlnum with
  | [] => acc
  | c :: _ => acc.push c.toUpper

/-- The acronym accumulation loop of `generateCode` over all words. -/
def acronymFold (ws : List (List Char)) (acc : String) : String :=
  ws.foldl acronymStep acc

namespace Part000

/-- Embeds `generateCode(name)` from the unnamed source file: pass a name
matching `^[A-Za-z]+\d+$` through unchanged (after trimming), otherwise
build the acronym of its whitespace-separated words; if the acronym is
empty, fall back to the (trimmed) name.  `if (!name)` is truth-testing a
string, i.e. the test for the empty string. -/
def generateCode (name : String) : String :=
  if name = "" then ""
  else
    let name := jsTrim name
    if testLettersDigits name.data then name
    else
      let code := acronymFold (jsWords name.data []) ""
      if code = "" then name else code

end Part000

example : Part000.generateCode "Physical Education" = "PE" := by decide
example : Part000.generateCode "K1" = "K1" := by decide
example : Part000.generateCode "k1" = "k1" := by decide
example : Part000.generateCode "Theoretical Understanding" = "TU" := by decide
example : Part000.generateCode "- -" = "- -" := by decide
example : Part000.generateCode "Autonomy & Responsibility" = "AR" := by decide

/-- Accessing `data[0].name` on an empty `data` array raises in JavaScript;
the specification names this failure `EmptyInputError`.  Both reformatter
variants are modelled as returning `Except EmptyInputError _`. -/
inductive EmptyInputError where
  | emptyInput
deriving Repr, DecidableEq

namespace Part000

/-- One value of the `structureMap` object: a synthesized identifier and
the identifier of its parent. -/
structure SMEntry where
  id : String
  parent : String
deriving Repr, DecidableEq

/-- JavaScript property lookup `obj[name]` on the `structureMap` object,
modelled on an association list (later insertions are consed to the front;
a key is never inserted twice, see `classifyRow`). -/
def smLookup (k : String) : List (String × SMEntry) → Option SMEntry
  | [] => none
  | (n, e) :: rest => if k = n then some e else smLookup k rest

/-- The initial `structureMap` literal: the three top-level areas, seeded
before any record is scanned. -/
def structureMapInit (pfx : String) : List (String × SMEntry) :=
  [("Knowledge", ⟨pfx ++ "-K", ""⟩),
   ("Skills", ⟨pfx ++ "-S", ""⟩),
   ("Competence", ⟨pfx ++ "-C", ""⟩)]

/-- The `subCategoryParents` object literal: canonical sub-area name to the
name of its major area. -/
def subCategoryParents (name : String) : Option String :=
  if name = "Theoretical Understanding" then some "Knowledge"
  else if name = "Applied Knowledge" then some "Knowledge"
  else if name = "Practical Application" then some "Knowledge"
  else if name = "Communication Skills" then some "Skills"
  else if name = "Generic Problem Solving" then some "Skills"
  else if name = "Critical Thinking" then some "Skills"
  else if name = "Autonomy & Responsibility" then some "Competence"
  else none

/-- The framework (root) row pushed first, with the file's
`STANDARD_VALUES` spread over it. -/
def frameworkRow (fileId : String) (mainFramework : Record) : OutputRow where
  parentIdNumber := ""
  idNumber := fileId
  shortName := mainFramework.name
  description := mainFramework.description
  descriptionFormat := "1"
  scaleValues := "Not yet competent,Competent"
  scaleConfiguration := "[\x7b\"scaleid\":\"2\"\x7d,\x7b\"id\":2,\"scaledefault\":1,\"proficient\":1\x7d]"
  ruleType := ""
  ruleOutcome := ""
  ruleConfig := ""
  crossReferenced := ""
  exportedId := ""
  isFramework := "1"
  taxonomy := "competency,competency,competency,competency,competency"

/-- A non-framework row pushed in the loop body, with the file's
`ROW_STANDARD_VALUES` spread over it (blank scale fields). -/
def childRow (parentId idNumber shortName description : String) : OutputRow where
  parentIdNumber := parentId
  idNumber := idNumber
  shortName := shortName
  description := description
  descriptionFormat := "1"
  scaleValues := ""
  scaleConfiguration := ""
  ruleType := ""
  ruleOutcome := ""
  ruleConfig := ""
  crossReferenced := ""
  exportedId := ""
  isFramework := ""
  taxonomy := "competency,competency,competency,competency,competency"

/-- The `startsWith` chain of the final `else` branch: the default
sub-area name guessed from the first letter, `""` when no letter
matches. -/
def fallbackParent (name : String) : String :=
  if name.startsWith "K" || name.startsWith "k" then "Theoretical Understanding"
  else if name.startsWith "S" || name.startsWith "s" then "Generic Problem Solving"
  else if name.startsWith "C" || name.startsWith "c" then "Autonomy & Responsibility"
  else ""

/-- The classification chain of the loop body: given the current
`structureMap` and a (non-empty) record name, produce the row's
`Parent ID number`, its `ID number`, and the updated `structureMap`.
Mirrors the `if (structureMap[name]) / else if (subCategoryParents[name])
/ else` chain of the source, including the `startsWith` fallback. -/
def classifyRow (pfx : String) (sm : List (String × SMEntry)) (name : String) :
    String × String × List (String × SMEntry) :=
  let code := generateCode name
  match smLookup name sm with
  | some e => (e.parent, e.id, sm)
  | none =>
    match subCategoryParents name with
    | some parentName =>
      match smLookup parentName sm with
      | some parentObj =>
        let parentId := parentObj.id
        let idNumber := parentId ++ "-" ++ code
        (parentId, idNumber, (name, ⟨idNumber, parentId⟩) :: sm)
      | none => ("", pfx ++ "-" ++ code, sm)
    | none =>
      let parentName := fallbackParent name
      if parentName ≠ "" then
        match smLookup parentName sm with
        | some parentObj => (parentObj.id, parentObj.id ++ "-" ++ code, sm)
        | none => ("", pfx ++ "-" ++ code, sm)
      else ("", pfx ++ "-" ++ code, sm)

/-- The `for (let i = 1; ...)` loop over the records after the first:
skip a record whose name is empty (`if (!name) continue`), otherwise
classify it and push one output row. -/
def processRows (pfx : String) : List Record → List (String × SMEntry) → List OutputRow
  | [], _ => []
  | r :: rest, sm =>
    if r.name = "" then processRows pfx rest sm
    else
      match classifyRow pfx sm r.name with
      | (parentId, idNumber, sm') =>
        childRow parentId idNumber r.name r.description :: processRows pfx rest sm'

/-- Embeds `cleanAndReformatCompetencies(data, programName, fileId)` of the
unnamed source file.  On an empty `data` the JavaScript code dereferences
`data[0].name` and raises; per the specification this is the
`EmptyInputError`.  The prefix comes from
`generateCode(mainFramework.name || programName)` (the `||` falls back to
`programName` exactly when the first record's name is the empty string). -/
def cleanAndReformatCompetencies (data : List Record) (programName fileId : String) :
    Except EmptyInputError (List OutputRow) :=
  match data with
  | [] => .error .emptyInput
  | mainFramework :: rest =>
    let pfx := generateCode
      (if mainFramework.name = "" then programName else mainFramework.name)
    .ok (frameworkRow fileId mainFramework :: processRows pfx rest (structureMapInit pfx))

end Part000

/-- JavaScript `str.replace(/lit/g, rep)` for a literal pattern: replace
every (non-overlapping, leftmost-first) occurrence of `pat` by `rep`. -/
def listReplaceAll (pat rep : List Char) : List Char → List Char
  | [] => []
  | c :: cs =>
    if h : pat.isPrefixOf (c :: cs) ∧ pat ≠ [] then
      rep ++ listReplaceAll pat rep ((c :: cs).drop pat.length)
    else
      c :: listReplaceAll pat rep cs
termination_by s => s.length
decreasing_by
  all_goals simp only [List.length_drop, List.length_cons]
  · have hp : 0 < pat.length := List.length_pos.2 h.2
    omega
  · omega

/-- Helper for the `/\s+-\s*/` separator: after zero or more further
whitespace characters, the next character is a hyphen. -/
def afterWsIsDash : List Char → Bool
  | [] => false
  | c :: cs => if jsIsWhitespace c then afterWsIsDash cs else c == '-'

/-- JavaScript `str.split(/\s+-\s*/)[0]`: the characters before the first
occurrence of a whitespace run followed by a hyphen. -/
def takeBeforeWsDash : List Char → List Char
  | [] => []
  | c :: cs =>
    if jsIsWhitespace c && afterWsIsDash cs then [] else c :: takeBeforeWsDash cs

/-- JavaScript character class `[A-Z]` (as in `match(/[A-Z]/g)`). -/
def jsIsUpperLatin (c : Char) : Bool :=
  0x41 ≤ c.toNat && c.toNat ≤ 0x5A

/-- JavaScript `String.prototype.toUpperCase`, restricted to its ASCII
fragment (`Char.toUpper` uppercases exactly the basic Latin letters; the
strings it is applied to here are ASCII codes or caseless Arabic text). -/
def jsToUpperCase (s : String) : String :=
  ⟨s.data.map Char.toUpper⟩

/-- JavaScript regular expression `^[Xx]\d+$` for a single letter given in
both cases: that letter followed by one or more ASCII digits. -/
def testSingleLetterDigits (upper lower : Char) (s : String) : Bool :=
  match s.data with
  | [] => false
  | c :: rest => (c == upper || c == lower) && !rest.isEmpty && rest.all jsIsDigit

namespace BatchConverter

/-- Embeds `createFrameworkPrefix(name)` from `batch_converter.js`: strip
the Arabic boilerplate phrases, truncate at a whitespace-hyphen separator,
then derive a prefix from embedded capital letters, word initials, or the
first three characters. -/
def createFrameworkPrefix (name : String) : String :=
  let cleanName : List Char :=
    takeBeforeWsDash
      (listReplaceAll "قسم ".data []
        (listReplaceAll "مخرجات برنامج ".data [] name.data))
  let parts := jsWords cleanName []
  if parts.length > 1 then
    let englishMatch := cleanName.filter jsIsUpperLatin
    if englishMatch.length ≥ 2 then ⟨englishMatch⟩
    else jsToUpperCase ⟨(parts.take 2).filterMap List.head?⟩
  else jsToUpperCase ⟨cleanName.take 3⟩

/-- The `MAJOR_AREA_MAP` object literal: canonical major/sub-area title to
its short area code. -/
def MAJOR_AREA_MAP (name : String) : Option String :=
  if name = "Knowledge" then some "K"
  else if name = "Theoretical Understanding" then some "K-TU"
  else if name = "Practical Application" then some "K-PA"
  else if name = "Skills" then some "S"
  else if name = "Generic Problem Solving" then some "S-GPS"
  else if name = "Communication Skills" then some "S-CS"
  else if name = "Competence" then some "C"
  else if name = "Autonomy & Responsibility" then some "C-ARC"
  else none

/-- The `PROGRAM_PREFIX_MAP` object literal: known full program names to
curated prefixes. -/
def PROGRAM_PREFIX_MAP (programName : String) : Option String :=
  if programName = "مخرجات برنامج ادارة الموارد البشرية" then some "HR"
  else if programName = "مخرجات برنامج ذكاء الاعمال" then some "BI"
  else if programName = "مخرجات برنامج التكنولوجيا المالية" then some "FT"
  else if programName = "مخرجات برنامج التسويق الرقمي" then some "DM"
  else if programName = "مخرجات برنامج المحاسبة" then some "AC"
  else if programName = "مخرجات برنامج قسم العلوم الجمركية والضريبية" then some "CT"
  else if programName = "مخرجات برنامج تكنولوجيا معلومات الاعمال" then some "IT"
  else if programName = "مخرجات برنامج ادارة الاعمال" then some "BA"
  else if programName = "Family Reform and Guidance" then some "FRG"
  else none

/-- The framework (root) row of this variant, with its `STANDARD_VALUES`
spread over it (note the doubled-quote `Scale configuration` literal and
the single-word `Taxonomy` of this variant). -/
def frameworkRow (fileId : String) (mainFramework : Record) : OutputRow where
  parentIdNumber := ""
  idNumber := fileId
  shortName := mainFramework.name
  description := mainFramework.description
  descriptionFormat := "1"
  scaleValues := "Not yet competent,Competent"
  scaleConfiguration := "[\x7b\"\"scaleid\"\":\"\"2\"\"\x7d,\x7b\"\"id\"\":2,\"\"scaledefault\"\":1,\"\"proficient\"\":1\x7d]"
  ruleType := ""
  ruleOutcome := ""
  ruleConfig := ""
  crossReferenced := ""
  exportedId := ""
  isFramework := "1"
  taxonomy := "competency"

/-- A non-framework row of this variant; unlike the other variant, the
same `STANDARD_VALUES` (including the populated scale fields) are spread
over every row. -/
def childRow (parentId idNumber shortName description : String) : OutputRow where
  parentIdNumber := parentId
  idNumber := idNumber
  shortName := shortName
  description := description
  descriptionFormat := "1"
  scaleValues := "Not yet competent,Competent"
  scaleConfiguration := "[\x7b\"\"scaleid\"\":\"\"2\"\"\x7d,\x7b\"\"id\"\":2,\"\"scaledefault\"\":1,\"\"proficient\"\":1\x7d]"
  ruleType := ""
  ruleOutcome := ""
  ruleConfig := ""
  crossReferenced := ""
  exportedId := ""
  isFramework := ""
  taxonomy := "competency"

/-- The `for (let i = 1; ...)` loop of this variant: classify each record
(no empty-name skip exists in this variant) and push one row, threading
the `currentSubAreaId` accumulator (updated only in the major/sub-area
branch).  `name in MAJOR_AREA_MAP` is modelled as membership among the
map's own keys; `MAJOR_AREA_MAP['Theoretical Understanding']` and the
other fixed accesses are written with their `getD ""` defaults, which
are never taken. -/
def processRows (englishPrefix : String) : List Record → String → List OutputRow
  | [], _ => []
  | r :: rest, currentSubAreaId =>
    let name := r.name
    match MAJOR_AREA_MAP name with
    | some areaCode =>
      let idNumber := englishPrefix ++ "-" ++ areaCode
      let parentId :=
        if name = "Knowledge" ∨ name = "Skills" ∨ name = "Competence" then ""
        else if name = "Theoretical Understanding" ∨ name = "Practical Application" then
          englishPrefix ++ "-K"
        else if name = "Generic Problem Solving" ∨ name = "Communication Skills" then
          englishPrefix ++ "-S"
        else if name = "Autonomy & Responsibility" then englishPrefix ++ "-C"
        else ""
      childRow parentId idNumber name r.description :: processRows englishPrefix rest idNumber
    | none =>
      if testSingleLetterDigits 'K' 'k' name then
        let areaCode := (MAJOR_AREA_MAP "Theoretical Understanding").getD ""
        let idNumber := englishPrefix ++ "-" ++ areaCode ++ "-" ++ jsToUpperCase name
        let parentId := englishPrefix ++ "-" ++ areaCode
        childRow parentId idNumber name r.description ::
          processRows englishPrefix rest currentSubAreaId
      else if testSingleLetterDigits 'S' 's' name then
        let areaCode := (MAJOR_AREA_MAP "Generic Problem Solving").getD ""
        let idNumber := englishPrefix ++ "-" ++ areaCode ++ "-" ++ jsToUpperCase name
        let parentId := englishPrefix ++ "-" ++ areaCode
        childRow parentId idNumber name r.description ::
          processRows englishPrefix rest currentSubAreaId
      else if testSingleLetterDigits 'C' 'c' name then
        let areaCode := (MAJOR_AREA_MAP "Autonomy & Responsibility").getD ""
        let idNumber := englishPrefix ++ "-" ++ areaCode ++ "-" ++ jsToUpperCase name
        let parentId := englishPrefix ++ "-" ++ areaCode
        childRow parentId idNumber name r.description ::
          processRows englishPrefix rest currentSubAreaId
      else
        let idNumber := englishPrefix ++ "-" ++ name
        let parentId := currentSubAreaId
        childRow parentId idNumber name r.description ::
          processRows englishPrefix rest currentSubAreaId

/-- Embeds `cleanAndReformatCompetencies(data, programName, fileId)` from
`batch_converter.js`.  On empty `data` the JavaScript dereferences
`data[0].name` and raises (the specification's `EmptyInputError`).  The
`englishPrefix` is computed identically on every loop iteration in the
source and is hoisted here; the source's `frameworkPrefix`/`frameworkId`
local variables are computed but never used afterwards and are omitted. -/
def cleanAndReformatCompetencies (data : List Record) (programName fileId : String) :
    Except EmptyInputError (List OutputRow) :=
  match data with
  | [] => .error .emptyInput
  | mainFramework :: rest =>
    let englishPrefix := (PROGRAM_PREFIX_MAP programName).getD (createFrameworkPrefix programName)
    .ok (frameworkRow fileId mainFramework :: processRows englishPrefix rest "")

end BatchConverter

/-- The `TARGET_COLUMNS` array: the fixed 14-column header, identical in
both source files. -/
def TARGET_COLUMNS : List String :=
  ["Parent ID number", "ID number", "Short name", "Description",
   "Description format", "Scale values", "Scale configuration",
   "Rule type (optional)", "Rule outcome (optional)", "Rule config (optional)",
   "Cross-referenced competency ID numbers", "Exported ID (optional)",
   "Is framework", "Taxonomy"]

/-- The field values of a row, in `TARGET_COLUMNS` order
(`TARGET_COLUMNS.map(col => row[col] ...)`; unassigned properties were
already modelled as `""` in `OutputRow`). -/
def rowFields (r : OutputRow) : List String :=
  [r.parentIdNumber, r.idNumber, r.shortName, r.description,
   r.descriptionFormat, r.scaleValues, r.scaleConfiguration,
   r.ruleType, r.ruleOutcome, r.ruleConfig,
   r.crossReferenced, r.exportedId,
   r.isFramework, r.taxonomy]

/-- JavaScript `value.replace(/"/g, '""')`: double every double-quote. -/
def doubleQuotesAll (v : String) : String :=
  ⟨v.data.foldr (fun c acc => if c = '"' then '"' :: '"' :: acc else c :: acc) []⟩

/-- The quoting condition of `toCsvString`:
`value.includes(',') || value.includes('"') || value.includes('\n') ||
value.includes(' ') || value.includes('[')` (single-character `includes`,
modelled as character membership). -/
def needsCsvQuoting (v : String) : Bool :=
  v.data.contains ',' || v.data.contains '"' || v.data.contains '\n' ||
  v.data.contains ' ' || v.data.contains '['

/-- The per-field body of the `TARGET_COLUMNS.map` in `toCsvString`: wrap
in double quotes (doubling internal double quotes) exactly when the value
contains one of the five trigger characters. -/
def csvEscapeField (v : String) : String :=
  if needsCsvQuoting v then "\"" ++ doubleQuotesAll v ++ "\"" else v

/-- Embeds `toCsvString(data)`, identical in both source files: empty
string for no rows, otherwise the joined header line followed by one
joined line per row. -/
def toCsvString (data : List OutputRow) : String :=
  if data.length = 0 then ""
  else
    data.foldl
      (fun csv row => csv ++ String.intercalate "," ((rowFields row).map csvEscapeField) ++ "\n")
      (String.intercalate "," TARGET_COLUMNS ++ "\n")

/-- The parent-linking property of one output row: its parent identifier
is empty, or one of the three seeded top-level identifiers, or among a
given set of previously emitted identifiers, or the identifier of an
earlier row of the same list. -/
def ParentLinked (pfx : String) (emitted : List String)
    (rows : List OutputRow) (i : Nat) : Prop :=
  (rows.getD i default).parentIdNumber = "" ∨
  (rows.getD i default).parentIdNumber ∈ [pfx ++ "-K", pfx ++ "-S", pfx ++ "-C"] ∨
  (rows.getD i default).parentIdNumber ∈ emitted ∨
  ∃ j < i, (rows.getD j default).idNumber = (rows.getD i default).parentIdNumber

/-! Helper lemmas about the modelled JavaScript character classes and the
acronym loop. -/

lemma jsIsWhitespace_eq_false_of_alnum (c : Char) (h : jsIsAlnum c = true) :
    jsIsWhitespace c = false := by
  simp only [jsIsAlnum, jsIsAsciiAlpha, jsIsDigit, Bool.or_eq_true, Bool.and_eq_true,
    decide_eq_true_eq] at h
  simp only [jsIsWhitespace, Bool.or_eq_false_iff, beq_eq_false_iff_ne, ne_eq,
    Bool.and_eq_false_iff, decide_eq_false_iff_not, not_le]
  omega

lemma jsWords_length_le_one (cs : List Char) (acc : List Char)
    (h : ∀ c ∈ cs, jsIsWhitespace c = false) : (jsWords cs acc).length ≤ 1 := by
  induction cs generalizing acc with
  | nil => simp only [jsWords]; split <;> simp
  | cons c cs ih =>
    have hc : jsIsWhitespace c = false := h c (by simp)
    simp only [jsWords, hc, Bool.false_eq_true, if_false]
    exact ih _ (fun d hd => h d (by simp [hd]))

lemma all_alnum_of_testLettersDigits (cs : List Char) (h : testLettersDigits cs = true) :
    ∀ c ∈ cs, jsIsAlnum c = true := by
  simp only [testLettersDigits, Bool.and_eq_true, Bool.not_eq_true',
    List.isEmpty_eq_false, List.all_eq_true] at h
  intro c hc
  rw [← List.takeWhile_append_dropWhile (p := jsIsAsciiAlpha) (l := cs)] at hc
  rcases List.mem_append.1 hc with hmem | hmem
  · have := List.mem_takeWhile_imp hmem
    simp [jsIsAlnum, this]
  · have := h.2 c hmem
    simp [jsIsAlnum, this]

lemma acronymStep_length_le (acc : String) (w : List Char) :
    (acronymStep acc w).length ≤ acc.length + 1 := by
  unfold acronymStep
  split <;> simp

lemma acronymStep_length_ge (acc : String) (w : List Char) :
    acc.length ≤ (acronymStep acc w).length := by
  unfold acronymStep
  split <;> simp

lemma acronymFold_length_le (ws : List (List Char)) (acc : String) :
    (acronymFold ws acc).length ≤ acc.length + ws.length := by
  induction ws generalizing acc with
  | nil => simp [acronymFold]
  | cons w ws ih =>
    simp only [acronymFold, List.foldl_cons, List.length_cons]
    refine le_trans (ih _) ?_
    have := acronymStep_length_le acc w
    omega

lemma acronymFold_length_ge (ws : List (List Char)) (acc : String) :
    acc.length ≤ (acronymFold ws acc).length := by
  induction ws generalizing acc with
  | nil => simp [acronymFold]
  | cons w ws ih =>
    simp only [acronymFold, List.foldl_cons]
    exact le_trans (acronymStep_length_ge acc w) (ih _)

lemma acronymFold_length_pos (ws : List (List Char)) (acc : String)
    (h : ∃ w ∈ ws, ∃ c ∈ w, jsIsAlnum c = true) : 1 ≤ (acronymFold ws acc).length := by
  induction ws generalizing acc with
  | nil => simp at h
  | cons w ws ih =>
    simp only [acronymFold, List.foldl_cons]
    rcases h with ⟨w', hw', hc⟩
    rcases List.mem_cons.1 hw' with rfl | hmem
    · obtain ⟨c, hcmem, halnum⟩ := hc
      have hfilter : w'.filter jsIsAlnum ≠ [] := by
        simp only [ne_eq, List.filter_eq_nil_iff, not_forall]
        exact ⟨c, hcmem, by simp [halnum]⟩
      have hstep : 1 ≤ (acronymStep acc w').length := by
        unfold acronymStep
        split
        · simp_all
        · simp
      exact le_trans hstep (acronymFold_length_ge ws _)
    · exact ih _ ⟨w', hmem, hc⟩

lemma acronymFold_ne_empty (ws : List (List Char)) (acc : String)
    (h : ∃ w ∈ ws, ∃ c ∈ w, jsIsAlnum c = true) : acronymFold ws acc ≠ "" := by
  have hlen := acronymFold_length_pos ws acc h
  intro hempty
  rw [hempty] at hlen
  simp at hlen

lemma toUpper_isUpper_or_isDigit (c : Char) (h : jsIsAlnum c = true) :
    (c.toUpper.isUpper || c.toUpper.isDigit) = true := by
  have key1 : ∀ n ∈ List.range' 65 26 1,
      ((Char.ofNat n).toUpper.isUpper || (Char.ofNat n).toUpper.isDigit) = true := by decide
  have key2 : ∀ n ∈ List.range' 97 26 1,
      ((Char.ofNat n).toUpper.isUpper || (Char.ofNat n).toUpper.isDigit) = true := by decide
  have key3 : ∀ n ∈ List.range' 48 10 1,
      ((Char.ofNat n).toUpper.isUpper || (Char.ofNat n).toUpper.isDigit) = true := by decide
  simp only [jsIsAlnum, jsIsAsciiAlpha, jsIsDigit, Bool.or_eq_true, Bool.and_eq_true,
    decide_eq_true_eq] at h
  have hc := Char.ofNat_toNat c
  rw [← hc]
  rcases h with (⟨h1, h2⟩ | ⟨h1, h2⟩) | ⟨h1, h2⟩
  · exact key1 c.toNat (List.mem_range'.2 ⟨c.toNat - 65, by omega, by omega⟩)
  · exact key2 c.toNat (List.mem_range'.2 ⟨c.toNat - 97, by omega, by omega⟩)
  · exact key3 c.toNat (List.mem_range'.2 ⟨c.toNat - 48, by omega, by omega⟩)

lemma acronymStep_chars (acc : String) (w : List Char)
    (hacc : ∀ c ∈ acc.data, (c.isUpper || c.isDigit) = true) :
    ∀ c ∈ (acronymStep acc w).data, (c.isUpper || c.isDigit) = true := by
  unfold acronymStep
  split
  · exact hacc
  · rename_i d rest hf
    intro c hcmem
    rw [String.data_push] at hcmem
    rcases List.mem_append.1 hcmem with hmem | hmem
    · exact hacc c hmem
    · have hd : jsIsAlnum d = true := by
        have : d ∈ w.filter jsIsAlnum := by rw [hf]; simp
        exact (List.mem_filter.1 this).2
      simp only [List.mem_singleton] at hmem
      subst hmem
      exact toUpper_isUpper_or_isDigit d hd

lemma acronymFold_chars (ws : List (List Char)) (acc : String)
    (hacc : ∀ c ∈ acc.data, (c.isUpper || c.isDigit) = true) :
    ∀ c ∈ (acronymFold ws acc).data, (c.isUpper || c.isDigit) = true := by
  induction ws generalizing acc with
  | nil => simpa [acronymFold] using hacc
  | cons w ws ih =>
    simp only [acronymFold, List.foldl_cons]
    exact ih _ (acronymStep_chars acc w hacc)

lemma generateCode_acronym_case (name : String) (hname : name ≠ "")
    (htest : testLettersDigits (jsTrim name).data = false)
    (hcode : acronymFold (jsWords (jsTrim name).data []) "" ≠ "") :
    Part000.generateCode name = acronymFold (jsWords (jsTrim name).data []) "" := by
  rw [Part000.generateCode, if_neg hname]
  simp only [htest, Bool.false_eq_true, if_false]
  rw [if_neg hcode]

/-- Claim C6 is false as stated: for the name consisting of the two
whitespace-separated words `-` and `-`, the acronym is empty, so
`generateCode` falls back to the original name, whose length 3 exceeds the
word count 2 (and whose characters are not uppercase). -/
theorem claim6_counterexample :
    (wordsOf "- -").length = 2 ∧ Part000.generateCode "- -" = "- -" ∧
    ¬((Part000.generateCode "- -").length ≤ (wordsOf "- -").length) := by
  refine ⟨by decide, by decide, ?_⟩
  decide

/-- Claim C6, amended: for every name consisting of two or more
whitespace-separated words, at least one of which contains an
alphanumeric character, `generateCode` returns a string whose length is
at most the number of words and each of whose characters is an uppercase
letter or a digit. -/
theorem claim6_generateCode_acronym (name : String)
    (hwords : 2 ≤ (wordsOf name).length)
    (halnum : ∃ w ∈ wordsOf name, ∃ c ∈ w, jsIsAlnum c = true) :
    (Part000.generateCode name).length ≤ (wordsOf name).length ∧
    ∀ c ∈ (Part000.generateCode name).data, (c.isUpper || c.isDigit) = true := by
  have hname : name ≠ "" := by
    intro h
    subst h
    have hz : (wordsOf "").length = 0 := by decide
    omega
  have hwords' : 2 ≤ (jsWords (jsTrim name).data []).length := hwords
  have htest : testLettersDigits (jsTrim name).data = false := by
    by_contra hc
    rw [Bool.not_eq_false] at hc
    have hall := all_alnum_of_testLettersDigits _ hc
    have hle : (jsWords (jsTrim name).data []).length ≤ 1 :=
      jsWords_length_le_one _ _
        (fun c h => jsIsWhitespace_eq_false_of_alnum c (hall c h))
    omega
  have hcode : acronymFold (jsWords (jsTrim name).data []) "" ≠ "" :=
    acronymFold_ne_empty _ _ halnum
  rw [generateCode_acronym_case name hname htest hcode]
  refine ⟨?_, acronymFold_chars _ _ (by simp)⟩
  have := acronymFold_length_le (jsWords (jsTrim name).data []) ""
  simpa using this

/-- Closed instance of the amended claim C6 at the name "Alpha Beta". -/
theorem claim6_witness :
    (Part000.generateCode "Alpha Beta").length ≤ (wordsOf "Alpha Beta").length ∧
    ∀ c ∈ (Part000.generateCode "Alpha Beta").data, (c.isUpper || c.isDigit) = true :=
  claim6_generateCode_acronym "Alpha Beta" (by decide) (by decide)

lemma needsCsvQuoting_iff (v : String) :
    needsCsvQuoting v = true ↔
      ∃ c ∈ v.data, c = ',' ∨ c = '"' ∨ c = '\n' ∨ c = ' ' ∨ c = '[' := by
  simp only [needsCsvQuoting, List.contains, Bool.or_eq_true, List.elem_eq_mem,
    decide_eq_true_eq]
  constructor
  · rintro ((((h | h) | h) | h) | h)
    · exact ⟨',', h, by simp⟩
    · exact ⟨'"', h, by simp⟩
    · exact ⟨'\n', h, by simp⟩
    · exact ⟨' ', h, by simp⟩
    · exact ⟨'[', h, by simp⟩
  · rintro ⟨c, hc, rfl | rfl | rfl | rfl | rfl⟩ <;> simp [hc]

lemma string_foldl_append (l : List String) (s : String) :
    l.foldl (fun acc x => acc ++ x) s = s ++ String.join l := by
  induction l generalizing s with
  | nil => simp [String.join]
  | cons x l ih =>
    have hj : String.join (x :: l) = x ++ String.join l := by
      simp only [String.join, List.foldl_cons]
      rw [show ("" ++ x : String) = x by simp]
      exact ih x
    simp only [List.foldl_cons, hj, ih (s ++ x), String.append_assoc]

lemma toCsvString_eq (data : List OutputRow) (h : data ≠ []) :
    toCsvString data =
      String.intercalate "," TARGET_COLUMNS ++ "\n" ++
        String.join (data.map
          (fun row => String.intercalate "," ((rowFields row).map csvEscapeField) ++ "\n")) := by
  rw [toCsvString, if_neg (by simpa using List.length_pos.2 h |>.ne')]
  have : (fun (csv : String) (row : OutputRow) =>
      csv ++ String.intercalate "," ((rowFields row).map csvEscapeField) ++ "\n") =
      (fun (csv : String) (row : OutputRow) =>
        csv ++ (String.intercalate "," ((rowFields row).map csvEscapeField) ++ "\n")) := by
    funext csv row
    rw [String.append_assoc]
  rw [this, ← List.foldl_map, string_foldl_append]

/-- Claim C7: every row the serializer emits is the comma-join of its 14
field values passed through `csvEscapeField`, and `csvEscapeField` wraps a
value in double quotes (doubling internal double quotes) exactly when the
value contains a comma, a double quote, a newline, a space, or an opening
square bracket; otherwise it returns the value unchanged. -/
theorem claim7_csv_quoting (v : String) (data : List OutputRow) (h : data ≠ []) :
    toCsvString data =
      String.intercalate "," TARGET_COLUMNS ++ "\n" ++
        String.join (data.map
          (fun row => String.intercalate "," ((rowFields row).map csvEscapeField) ++ "\n")) ∧
    ((∃ c ∈ v.data, c = ',' ∨ c = '"' ∨ c = '\n' ∨ c = ' ' ∨ c = '[') →
      csvEscapeField v = "\"" ++ doubleQuotesAll v ++ "\"") ∧
    ((¬ ∃ c ∈ v.data, c = ',' ∨ c = '"' ∨ c = '\n' ∨ c = ' ' ∨ c = '[') →
      csvEscapeField v = v) := by
  refine ⟨toCsvString_eq data h, ?_, ?_⟩
  · intro hq
    rw [csvEscapeField, if_pos ((needsCsvQuoting_iff v).2 hq)]
  · intro hq
    rw [csvEscapeField, if_neg (fun hb => hq ((needsCsvQuoting_iff v).1 hb))]

/-- Closed instance of claim C7: a value with a space is quoted, a plain
value is unchanged, and the one-row serialization goes through
`csvEscapeField`. -/
theorem claim7_witness :
    toCsvString [Part000.childRow "" "X" "n" "d"] =
      String.intercalate "," TARGET_COLUMNS ++ "\n" ++
        String.join ([Part000.childRow "" "X" "n" "d"].map
          (fun row => String.intercalate "," ((rowFields row).map csvEscapeField) ++ "\n")) ∧
    csvEscapeField "a b" = "\"" ++ doubleQuotesAll "a b" ++ "\"" ∧
    csvEscapeField "ab" = "ab" := by
  refine ⟨(claim7_csv_quoting "a b" [Part000.childRow "" "X" "n" "d"] (by simp)).1, ?_, ?_⟩
  · exact (claim7_csv_quoting "a b" [Part000.childRow "" "X" "n" "d"] (by simp)).2.1
      ⟨' ', by decide, by simp⟩
  · exact (claim7_csv_quoting "ab" [Part000.childRow "" "X" "n" "d"] (by simp)).2.2
      (by decide)

/-- Claim C9: the reformatter is a pure function, so two invocations on
identical record sequences, program names and root identifiers return
identical row sequences, and hence identical serialized CSV text. -/
theorem claim9_deterministic (d1 d2 : List Record) (p1 p2 f1 f2 : String)
    (hd : d1 = d2) (hp : p1 = p2) (hf : f1 = f2) :
    Part000.cleanAndReformatCompetencies d1 p1 f1
        = Part000.cleanAndReformatCompetencies d2 p2 f2 ∧
    (Part000.cleanAndReformatCompetencies d1 p1 f1).map toCsvString
        = (Part000.cleanAndReformatCompetencies d2 p2 f2).map toCsvString := by
  subst hd hp hf
  exact ⟨rfl, rfl⟩

/-- Closed instance of claim C9 at a concrete input. -/
theorem claim9_witness :
    Part000.cleanAndReformatCompetencies [⟨"N", "D"⟩] "p" "7"
        = Part000.cleanAndReformatCompetencies [⟨"N", "D"⟩] "p" "7" ∧
    (Part000.cleanAndReformatCompetencies [⟨"N", "D"⟩] "p" "7").map toCsvString
        = (Part000.cleanAndReformatCompetencies [⟨"N", "D"⟩] "p" "7").map toCsvString :=
  claim9_deterministic [⟨"N", "D"⟩] [⟨"N", "D"⟩] "p" "p" "7" "7" rfl rfl rfl

/-- Claim C5: the reformatter fails exactly on an empty record sequence -
there it signals `EmptyInputError` - and returns normally on every
non-empty sequence, however malformed the names are. -/
theorem claim5_empty_input (data : List Record) (programName fileId : String) :
    Part000.cleanAndReformatCompetencies [] programName fileId
        = .error .emptyInput ∧
    (data ≠ [] → ∃ rows,
      Part000.cleanAndReformatCompetencies data programName fileId = .ok rows) := by
  refine ⟨rfl, fun h => ?_⟩
  match data, h with
  | r :: rest, _ => exact ⟨_, rfl⟩

/-- Closed instance of claim C5: failure on `[]`, success on a singleton
with a malformed name. -/
theorem claim5_witness :
    Part000.cleanAndReformatCompetencies [] "p" "7" = .error .emptyInput ∧
    ∃ rows, Part000.cleanAndReformatCompetencies [⟨"@@!!", ""⟩] "p" "7" = .ok rows :=
  ⟨(claim5_empty_input [] "p" "7").1,
   (claim5_empty_input [⟨"@@!!", ""⟩] "p" "7").2 (by simp)⟩

lemma processRows_length (pfx : String) (rs : List Record) (sm : List (String × Part000.SMEntry)) :
    (Part000.processRows pfx rs sm).length
      = (rs.filter (fun r => r.name ≠ "")).length := by
  induction rs generalizing sm with
  | nil => rfl
  | cons r rest ih =>
    by_cases hr : r.name = ""
    · simp [Part000.processRows, hr, ih]
    · rcases hcl : Part000.classifyRow pfx sm r.name with ⟨p, i, sm'⟩
      simp [Part000.processRows, hr, hcl, ih, List.filter_cons]

lemma processRows_mem (pfx : String) (rs : List Record) (sm : List (String × Part000.SMEntry)) :
    ∀ row ∈ Part000.processRows pfx rs sm,
      row.isFramework = "" ∧ row.descriptionFormat = "1" ∧ row.scaleValues = "" ∧
      row.scaleConfiguration = "" ∧
      row.taxonomy = "competency,competency,competency,competency,competency" := by
  induction rs generalizing sm with
  | nil => intro row h; simp [Part000.processRows] at h
  | cons r rest ih =>
    intro row h
    by_cases hr : r.name = ""
    · rw [Part000.processRows, if_pos hr] at h
      exact ih sm row h
    · rcases hcl : Part000.classifyRow pfx sm r.name with ⟨p, i, sm'⟩
      rw [Part000.processRows, if_neg hr, hcl] at h
      rcases List.mem_cons.1 h with rfl | hmem
      · exact ⟨rfl, rfl, rfl, rfl, rfl⟩
      · exact ih sm' row hmem

lemma processRows_names (pfx : String) (rs : List Record) (sm : List (String × Part000.SMEntry)) :
    (Part000.processRows pfx rs sm).map (fun row => (row.shortName, row.description))
      = (rs.filter (fun r => r.name ≠ "")).map (fun r => (r.name, r.description)) := by
  induction rs generalizing sm with
  | nil => rfl
  | cons r rest ih =>
    by_cases hr : r.name = ""
    · simp [Part000.processRows, hr, ih]
    · rcases hcl : Part000.classifyRow pfx sm r.name with ⟨p, i, sm'⟩
      simp [Part000.processRows, hr, hcl, ih, List.filter_cons, Part000.childRow]

/-- Claim C4: on a non-empty record sequence the reformatter returns
exactly one framework row plus one row per subsequent record with a
non-empty name; empty-named records after position 0 produce no row. -/
theorem claim4_output_length (mf : Record) (rest : List Record) (programName fileId : String) :
    ∃ rows,
      Part000.cleanAndReformatCompetencies (mf :: rest) programName fileId = .ok rows ∧
      rows.length = 1 + (rest.filter (fun r => r.name ≠ "")).length := by
  refine ⟨_, rfl, ?_⟩
  rw [List.length_cons, processRows_length]
  omega

/-- Closed instance of claim C4: of two subsequent records, only the one
with a non-empty name produces a row. -/
theorem claim4_witness :
    ∃ rows,
      Part000.cleanAndReformatCompetencies
          [⟨"N", "D"⟩, ⟨"", "skipped"⟩, ⟨"Knowledge", ""⟩] "p" "7" = .ok rows ∧
      rows.length = 1 +
        (([⟨"", "skipped"⟩, ⟨"Knowledge", ""⟩] : List Record).filter
          (fun r => r.name ≠ "")).length :=
  claim4_output_length ⟨"N", "D"⟩ [⟨"", "skipped"⟩, ⟨"Knowledge", ""⟩] "p" "7"

/-- Claim C8: the first output row is the framework row - `Is framework`
is 1, `ID number` is the caller-supplied root identifier, `Parent ID
number` is empty - and every other row has empty `Is framework`. -/
theorem claim8_framework_first (mf : Record) (rest : List Record) (programName fileId : String) :
    ∃ fw children,
      Part000.cleanAndReformatCompetencies (mf :: rest) programName fileId
          = .ok (fw :: children) ∧
      fw.isFramework = "1" ∧ fw.idNumber = fileId ∧ fw.parentIdNumber = "" ∧
      ∀ row ∈ children, row.isFramework = "" := by
  refine ⟨_, _, rfl, rfl, rfl, rfl, ?_⟩
  intro row hmem
  exact (processRows_mem _ _ _ row hmem).1

/-- Closed instance of claim C8 at a concrete input. -/
theorem claim8_witness :
    ∃ fw children,
      Part000.cleanAndReformatCompetencies
          [⟨"N", "D"⟩, ⟨"Skills", "s"⟩] "p" "42" = .ok (fw :: children) ∧
      fw.isFramework = "1" ∧ fw.idNumber = "42" ∧ fw.parentIdNumber = "" ∧
      ∀ row ∈ children, row.isFramework = "" :=
  claim8_framework_first ⟨"N", "D"⟩ [⟨"Skills", "s"⟩] "p" "42"

lemma tsld_all_digits (u l : Char) (s : String)
    (h : testSingleLetterDigits u l s = true) :
    s.data.tail.all jsIsDigit = true := by
  unfold testSingleLetterDigits at h
  rcases hs : s.data with _ | ⟨c, rest⟩
  · rw [hs] at h
    simp at h
  · rw [hs] at h
    simp only [Bool.and_eq_true] at h
    simpa using h.2

lemma MAJOR_AREA_MAP_eq_none_of_tsld (u l : Char) (name : String)
    (h : testSingleLetterDigits u l name = true) :
    BatchConverter.MAJOR_AREA_MAP name = none := by
  have hd := tsld_all_digits u l name h
  rw [BatchConverter.MAJOR_AREA_MAP]
  split_ifs with h1 h2 h3 h4 h5 h6 h7 h8
  · exact absurd (h1 ▸ hd) (by decide)
  · exact absurd (h2 ▸ hd) (by decide)
  · exact absurd (h3 ▸ hd) (by decide)
  · exact absurd (h4 ▸ hd) (by decide)
  · exact absurd (h5 ▸ hd) (by decide)
  · exact absurd (h6 ▸ hd) (by decide)
  · exact absurd (h7 ▸ hd) (by decide)
  · exact absurd (h8 ▸ hd) (by decide)
  · rfl

lemma BC_processRows_length (P : String) (rs : List Record) (cur : String) :
    (BatchConverter.processRows P rs cur).length = rs.length := by
  induction rs generalizing cur with
  | nil => rfl
  | cons r rest ih =>
    simp only [BatchConverter.processRows]
    rcases hm : BatchConverter.MAJOR_AREA_MAP r.name with _ | code
    · simp only [hm]
      split_ifs <;> simp [ih]
    · simp only [hm]
      simp [ih]

lemma subCategoryParents_domain (name pn : String)
    (h : Part000.subCategoryParents name = some pn) :
    (pn = "Knowledge" ∨ pn = "Skills" ∨ pn = "Competence") ∧
    name ≠ "Knowledge" ∧ name ≠ "Skills" ∧ name ≠ "Competence" := by
  unfold Part000.subCategoryParents at h
  split_ifs at h with h1 h2 h3 h4 h5 h6 h7 <;>
    (cases h; subst_vars; exact ⟨by simp, by decide, by decide, by decide⟩)

lemma classifyRow_cases (pfx : String) (sm : List (String × Part000.SMEntry)) (name : String) :
    (∃ e, Part000.smLookup name sm = some e ∧
      Part000.classifyRow pfx sm name = (e.parent, e.id, sm)) ∨
    (∃ pn po, Part000.smLookup name sm = none ∧
      Part000.subCategoryParents name = some pn ∧
      Part000.smLookup pn sm = some po ∧
      Part000.classifyRow pfx sm name
        = (po.id, po.id ++ "-" ++ Part000.generateCode name,
           (name, ⟨po.id ++ "-" ++ Part000.generateCode name, po.id⟩) :: sm)) ∨
    (∃ po, Part000.smLookup name sm = none ∧
      Part000.subCategoryParents name = none ∧
      Part000.fallbackParent name ≠ "" ∧
      Part000.smLookup (Part000.fallbackParent name) sm = some po ∧
      Part000.classifyRow pfx sm name
        = (po.id, po.id ++ "-" ++ Part000.generateCode name, sm)) ∨
    (Part000.smLookup name sm = none ∧
      Part000.classifyRow pfx sm name = ("", pfx ++ "-" ++ Part000.generateCode name, sm)) := by
  unfold Part000.classifyRow
  rcases h1 : Part000.smLookup name sm with _ | e
  · rcases h2 : Part000.subCategoryParents name with _ | pn
    · by_cases h3 : Part000.fallbackParent name = ""
      · right; right; right
        refine ⟨rfl, ?_⟩
        simp [h3]
      · rcases h4 : Part000.smLookup (Part000.fallbackParent name) sm with _ | po
        · right; right; right
          refine ⟨rfl, ?_⟩
          simp [h3, h4]
        · right; right; left
          refine ⟨po, rfl, rfl, h3, rfl, ?_⟩
          simp [h3, h4]
    · rcases h3 : Part000.smLookup pn sm with _ | po
      · right; right; right
        refine ⟨rfl, ?_⟩
        simp [h3]
      · right; left
        refine ⟨pn, po, rfl, rfl, h3, ?_⟩
        simp [h3]
  · left
    exact ⟨e, rfl, rfl⟩

lemma tsld_false_of_tsld (u l u' l' : Char) (name : String)
    (h : testSingleLetterDigits u l name = true)
    (h1 : u ≠ u') (h2 : u ≠ l') (h3 : l ≠ u') (h4 : l ≠ l') :
    testSingleLetterDigits u' l' name = false := by
  unfold testSingleLetterDigits at h ⊢
  rcases hs : name.data with _ | ⟨c, rest⟩
  · rfl
  · rw [hs] at h
    simp only [Bool.and_eq_true, Bool.or_eq_true, beq_iff_eq] at h
    rcases h.1.1 with rfl | rfl <;> simp [h1, h2, h3, h4]

lemma BC_processRows_K (P : String) (rs : List Record) (cur : String) (i : Nat)
    (hi : i < rs.length)
    (hK : testSingleLetterDigits 'K' 'k' (rs.getD i default).name = true) :
    (BatchConverter.processRows P rs cur).getD i default
      = BatchConverter.childRow
          (P ++ "-" ++ "K-TU")
          (P ++ "-" ++ "K-TU" ++ "-" ++ jsToUpperCase (rs.getD i default).name)
          (rs.getD i default).name (rs.getD i default).description := by
  induction rs generalizing cur i with
  | nil => simp at hi
  | cons r rest ih =>
    cases i with
    | zero =>
      simp only [List.getD_cons_zero] at hK ⊢
      have hm := MAJOR_AREA_MAP_eq_none_of_tsld _ _ _ hK
      simp only [BatchConverter.processRows, hm, hK, if_true, List.getD_cons_zero]
      rfl
    | succ i =>
      simp only [List.getD_cons_succ] at hK ⊢
      have hi' : i < rest.length := by simpa using hi
      simp only [BatchConverter.processRows]
      rcases hm : BatchConverter.MAJOR_AREA_MAP r.name with _ | code
      · simp only [hm]
        split_ifs <;> simp only [List.getD_cons_succ] <;> exact ih _ _ hi' hK
      · simp only [hm, List.getD_cons_succ]
        exact ih _ _ hi' hK

lemma BC_processRows_S (P : String) (rs : List Record) (cur : String) (i : Nat)
    (hi : i < rs.length)
    (hS : testSingleLetterDigits 'S' 's' (rs.getD i default).name = true) :
    (BatchConverter.processRows P rs cur).getD i default
      = BatchConverter.childRow
          (P ++ "-" ++ "S-GPS")
          (P ++ "-" ++ "S-GPS" ++ "-" ++ jsToUpperCase (rs.getD i default).name)
          (rs.getD i default).name (rs.getD i default).description := by
  induction rs generalizing cur i with
  | nil => simp at hi
  | cons r rest ih =>
    cases i with
    | zero =>
      simp only [List.getD_cons_zero] at hS ⊢
      have hm := MAJOR_AREA_MAP_eq_none_of_tsld _ _ _ hS
      have hKf : testSingleLetterDigits 'K' 'k' r.name = false :=
        tsld_false_of_tsld 'S' 's' 'K' 'k' r.name hS
          (by decide) (by decide) (by decide) (by decide)
      simp only [BatchConverter.processRows, hm, hKf, Bool.false_eq_true, if_false,
        hS, if_true, List.getD_cons_zero]
      rfl
    | succ i =>
      simp only [List.getD_cons_succ] at hS ⊢
      have hi' : i < rest.length := by simpa using hi
      simp only [BatchConverter.processRows]
      rcases hm : BatchConverter.MAJOR_AREA_MAP r.name with _ | code
      · simp only [hm]
        split_ifs <;> simp only [List.getD_cons_succ] <;> exact ih _ _ hi' hS
      · simp only [hm, List.getD_cons_succ]
        exact ih _ _ hi' hS

lemma BC_processRows_C (P : String) (rs : List Record) (cur : String) (i : Nat)
    (hi : i < rs.length)
    (hC : testSingleLetterDigits 'C' 'c' (rs.getD i default).name = true) :
    (BatchConverter.processRows P rs cur).getD i default
      = BatchConverter.childRow
          (P ++ "-" ++ "C-ARC")
          (P ++ "-" ++ "C-ARC" ++ "-" ++ jsToUpperCase (rs.getD i default).name)
          (rs.getD i default).name (rs.getD i default).description := by
  induction rs generalizing cur i with
  | nil => simp at hi
  | cons r rest ih =>
    cases i with
    | zero =>
      simp only [List.getD_cons_zero] at hC ⊢
      have hm := MAJOR_AREA_MAP_eq_none_of_tsld _ _ _ hC
      have hKf : testSingleLetterDigits 'K' 'k' r.name = false :=
        tsld_false_of_tsld 'C' 'c' 'K' 'k' r.name hC
          (by decide) (by decide) (by decide) (by decide)
      have hSf : testSingleLetterDigits 'S' 's' r.name = false :=
        tsld_false_of_tsld 'C' 'c' 'S' 's' r.name hC
          (by decide) (by decide) (by decide) (by decide)
      simp only [BatchConverter.processRows, hm, hKf, hSf, Bool.false_eq_true, if_false,
        hC, if_true, List.getD_cons_zero]
      rfl
    | succ i =>
      simp only [List.getD_cons_succ] at hC ⊢
      have hi' : i < rest.length := by simpa using hi
      simp only [BatchConverter.processRows]
      rcases hm : BatchConverter.MAJOR_AREA_MAP r.name with _ | code
      · simp only [hm]
        split_ifs <;> simp only [List.getD_cons_succ] <;> exact ih _ _ hi' hC
      · simp only [hm, List.getD_cons_succ]
        exact ih _ _ hi' hC

lemma smLookup_cons_ne (k n : String) (e : Part000.SMEntry)
    (sm : List (String × Part000.SMEntry)) (h : k ≠ n) :
    Part000.smLookup k ((n, e) :: sm) = Part000.smLookup k sm := by
  simp [Part000.smLookup, h]

lemma processRows_TU (pfx : String) (rs : List Record)
    (sm : List (String × Part000.SMEntry))
    (hK : Part000.smLookup "Knowledge" sm = some ⟨pfx ++ "-K", ""⟩)
    (hTU : ∀ e, Part000.smLookup "Theoretical Understanding" sm = some e →
        e = ⟨pfx ++ "-K" ++ "-" ++ "TU", pfx ++ "-K"⟩) :
    ∀ row ∈ Part000.processRows pfx rs sm,
      row.shortName = "Theoretical Understanding" →
      row.parentIdNumber = pfx ++ "-K" ∧ row.idNumber = pfx ++ "-K" ++ "-" ++ "TU" := by
  have hsub : Part000.subCategoryParents "Theoretical Understanding"
      = some "Knowledge" := rfl
  have hcode : Part000.generateCode "Theoretical Understanding" = "TU" := by decide
  induction rs generalizing sm with
  | nil =>
    intro row h
    simp [Part000.processRows] at h
  | cons r rest ih =>
    intro row hmem hname
    by_cases hr : r.name = ""
    · rw [Part000.processRows, if_pos hr] at hmem
      exact ih sm hK hTU row hmem hname
    · rcases hcl : Part000.classifyRow pfx sm r.name with ⟨p, idn, sm'⟩
      rw [Part000.processRows, if_neg hr, hcl] at hmem
      rcases List.mem_cons.1 hmem with rfl | hmem'
      · have hrname : r.name = "Theoretical Understanding" := hname
        rw [hrname] at hcl
        rcases hl : Part000.smLookup "Theoretical Understanding" sm with _ | e
        · simp only [Part000.classifyRow, hl, hsub, hK, hcode] at hcl
          simp only [Prod.mk.injEq] at hcl
          obtain ⟨rfl, rfl, rfl⟩ := hcl
          exact ⟨rfl, rfl⟩
        · have he := hTU e hl
          subst he
          simp only [Part000.classifyRow, hl] at hcl
          simp only [Prod.mk.injEq] at hcl
          obtain ⟨rfl, rfl, rfl⟩ := hcl
          exact ⟨rfl, rfl⟩
      · rcases classifyRow_cases pfx sm r.name with
          ⟨e, hl, heq⟩ | ⟨pn, po, hl, hsubr, hlp, heq⟩ | ⟨po, hl, hsubr, hfb, hlp, heq⟩ |
          ⟨hl, heq⟩
        · have hsm' : sm' = sm := by
            have h3 := heq.symm.trans hcl
            simp only [Prod.mk.injEq] at h3
            exact h3.2.2.symm
          subst hsm'
          exact ih _ hK hTU row hmem' hname
        · have h3 := heq.symm.trans hcl
          simp only [Prod.mk.injEq] at h3
          obtain ⟨hp, hidn, hsm'⟩ := h3
          have hsm'' := hsm'.symm
          subst hsm''
          have hdom := subCategoryParents_domain r.name pn hsubr
          have hK' : Part000.smLookup "Knowledge"
              ((r.name, ⟨po.id ++ "-" ++ Part000.generateCode r.name, po.id⟩) :: sm)
              = some ⟨pfx ++ "-K", ""⟩ := by
            rw [smLookup_cons_ne _ _ _ _ (fun hkn => hdom.2.1 hkn.symm)]
            exact hK
          have hTU' : ∀ e, Part000.smLookup "Theoretical Understanding"
              ((r.name, ⟨po.id ++ "-" ++ Part000.generateCode r.name, po.id⟩) :: sm)
              = some e → e = ⟨pfx ++ "-K" ++ "-" ++ "TU", pfx ++ "-K"⟩ := by
            intro e he
            by_cases htu : r.name = "Theoretical Understanding"
            · rw [htu] at he hsubr
              rw [hsub] at hsubr
              have hpn : pn = "Knowledge" := (Option.some_inj.1 hsubr).symm
              subst hpn
              rw [hK] at hlp
              have hpo : po = ⟨pfx ++ "-K", ""⟩ := (Option.some_inj.1 hlp).symm
              subst hpo
              rw [Part000.smLookup, if_pos rfl] at he
              have hee : e = _ := (Option.some_inj.1 he).symm
              rw [hee, hcode]
            · rw [smLookup_cons_ne _ _ _ _ (fun h => htu h.symm)] at he
              exact hTU e he
          exact ih _ hK' hTU' row hmem' hname
        · have hsm' : sm' = sm := by
            have h3 := heq.symm.trans hcl
            simp only [Prod.mk.injEq] at h3
            exact h3.2.2.symm
          subst hsm'
          exact ih _ hK hTU row hmem' hname
        · have hsm' : sm' = sm := by
            have h3 := heq.symm.trans hcl
            simp only [Prod.mk.injEq] at h3
            exact h3.2.2.symm
          subst hsm'
          exact ih _ hK hTU row hmem' hname

/-- Claim C10: the area table is pre-seeded with the three top-level
areas, so every emitted non-framework row named "Theoretical
Understanding" receives parent identifier prefix-K and identifier
prefix-K-TU, on every input - in particular when the "Knowledge" row
appears later than the sub-area row or not at all. -/
theorem claim10_preseeded_subarea (mf : Record) (rest : List Record)
    (programName fileId : String) :
    ∃ fw children,
      Part000.cleanAndReformatCompetencies (mf :: rest) programName fileId
          = .ok (fw :: children) ∧
      ∀ pfx, pfx = Part000.generateCode
          (if mf.name = "" then programName else mf.name) →
        ∀ row ∈ children, row.shortName = "Theoretical Understanding" →
          row.parentIdNumber = pfx ++ "-K" ∧ row.idNumber = pfx ++ "-K-TU" := by
  refine ⟨_, _, rfl, ?_⟩
  rintro pfx rfl
  intro row hmem hname
  have h := processRows_TU
      (Part000.generateCode (if mf.name = "" then programName else mf.name)) rest
      (Part000.structureMapInit
        (Part000.generateCode (if mf.name = "" then programName else mf.name)))
      rfl
      (by
        intro e he
        simp [Part000.smLookup, Part000.structureMapInit] at he)
      row hmem hname
  refine ⟨h.1, ?_⟩
  rw [h.2, String.append_assoc, String.append_assoc]
  rfl

/-- Closed instance of claim C10: "Theoretical Understanding" appears
without any "Knowledge" row and still receives parent PE-K and identifier
PE-K-TU. -/
theorem claim10_witness :
    ∃ fw children,
      Part000.cleanAndReformatCompetencies
          [⟨"Physical Education", "d"⟩, ⟨"Theoretical Understanding", ""⟩] "P" "100"
          = .ok (fw :: children) ∧
      ∀ pfx, pfx = Part000.generateCode
          (if ("Physical Education" : String) = "" then "P" else "Physical Education") →
        ∀ row ∈ children, row.shortName = "Theoretical Understanding" →
          row.parentIdNumber = pfx ++ "-K" ∧ row.idNumber = pfx ++ "-K-TU" :=
  claim10_preseeded_subarea ⟨"Physical Education", "d"⟩
    [⟨"Theoretical Understanding", ""⟩] "P" "100"

lemma processRows_parent_linked (pfx : String) (rs : List Record)
    (sm : List (String × Part000.SMEntry)) (emitted : List String)
    (hK : Part000.smLookup "Knowledge" sm = some ⟨pfx ++ "-K", ""⟩)
    (hS : Part000.smLookup "Skills" sm = some ⟨pfx ++ "-S", ""⟩)
    (hC : Part000.smLookup "Competence" sm = some ⟨pfx ++ "-C", ""⟩)
    (hinv : ∀ k e, Part000.smLookup k sm = some e →
      (e.parent = "" ∨ e.parent ∈ [pfx ++ "-K", pfx ++ "-S", pfx ++ "-C"]) ∧
      (e.id ∈ [pfx ++ "-K", pfx ++ "-S", pfx ++ "-C"] ∨ e.id ∈ emitted)) :
    ∀ i, i < (Part000.processRows pfx rs sm).length →
      ParentLinked pfx emitted (Part000.processRows pfx rs sm) i := by
  induction rs generalizing sm emitted with
  | nil =>
    intro i hi
    simp [Part000.processRows] at hi
  | cons r rest ih =>
    intro i hi
    by_cases hr : r.name = ""
    · rw [Part000.processRows, if_pos hr] at hi ⊢
      exact ih sm emitted hK hS hC hinv i hi
    · rcases hcl : Part000.classifyRow pfx sm r.name with ⟨p, idn, sm'⟩
      rw [Part000.processRows, if_neg hr, hcl] at hi ⊢
      cases i with
      | zero =>
        unfold ParentLinked
        simp only [List.getD_cons_zero, Part000.childRow]
        rcases classifyRow_cases pfx sm r.name with
          ⟨e, hl, heq⟩ | ⟨pn, po, hl, hsubr, hlp, heq⟩ |
          ⟨po, hl, hsubr, hfb, hlp, heq⟩ | ⟨hl, heq⟩
        · have h3 := heq.symm.trans hcl
          simp only [Prod.mk.injEq] at h3
          obtain ⟨hp, _, _⟩ := h3
          rcases (hinv r.name e hl).1 with he | he
          · left; rw [← hp, he]
          · right; left; rw [← hp]; exact he
        · have h3 := heq.symm.trans hcl
          simp only [Prod.mk.injEq] at h3
          obtain ⟨hp, _, _⟩ := h3
          rcases (hinv pn po hlp).2 with he | he
          · right; left; rw [← hp]; exact he
          · right; right; left; rw [← hp]; exact he
        · have h3 := heq.symm.trans hcl
          simp only [Prod.mk.injEq] at h3
          obtain ⟨hp, _, _⟩ := h3
          rcases (hinv _ po hlp).2 with he | he
          · right; left; rw [← hp]; exact he
          · right; right; left; rw [← hp]; exact he
        · have h3 := heq.symm.trans hcl
          simp only [Prod.mk.injEq] at h3
          obtain ⟨hp, _, _⟩ := h3
          left; rw [← hp]
      | succ i =>
        have hnext : ∀ (sm'' : List (String × Part000.SMEntry)),
            sm'' = sm' →
            Part000.smLookup "Knowledge" sm'' = some ⟨pfx ++ "-K", ""⟩ →
            Part000.smLookup "Skills" sm'' = some ⟨pfx ++ "-S", ""⟩ →
            Part000.smLookup "Competence" sm'' = some ⟨pfx ++ "-C", ""⟩ →
            (∀ k e, Part000.smLookup k sm'' = some e →
              (e.parent = "" ∨ e.parent ∈ [pfx ++ "-K", pfx ++ "-S", pfx ++ "-C"]) ∧
              (e.id ∈ [pfx ++ "-K", pfx ++ "-S", pfx ++ "-C"] ∨
                e.id ∈ emitted ++ [idn])) →
            ParentLinked pfx emitted
              (Part000.childRow p idn r.name r.description ::
                Part000.processRows pfx rest sm') (i + 1) := by
          rintro sm'' rfl hK' hS' hC' hinv'
          have hih := ih sm'' (emitted ++ [idn]) hK' hS' hC' hinv' i
            (by simpa using hi)
          unfold ParentLinked at hih ⊢
          simp only [List.getD_cons_succ]
          rcases hih with h | h | h | ⟨j, hj, hjeq⟩
          · exact Or.inl h
          · exact Or.inr (Or.inl h)
          · rcases List.mem_append.1 h with h' | h'
            · exact Or.inr (Or.inr (Or.inl h'))
            · refine Or.inr (Or.inr (Or.inr ⟨0, by omega, ?_⟩))
              simp only [List.getD_cons_zero, Part000.childRow]
              exact (List.mem_singleton.1 h').symm
          · refine Or.inr (Or.inr (Or.inr ⟨j + 1, by omega, ?_⟩))
            simpa [List.getD_cons_succ] using hjeq
        have hweak : ∀ k e, Part000.smLookup k sm = some e →
            (e.parent = "" ∨ e.parent ∈ [pfx ++ "-K", pfx ++ "-S", pfx ++ "-C"]) ∧
            (e.id ∈ [pfx ++ "-K", pfx ++ "-S", pfx ++ "-C"] ∨ e.id ∈ emitted ++ [idn]) :=
          fun k e h => ⟨(hinv k e h).1,
            (hinv k e h).2.imp_right (fun hm => List.mem_append.2 (Or.inl hm))⟩
        rcases classifyRow_cases pfx sm r.name with
          ⟨e, hl, heq⟩ | ⟨pn, po, hl, hsubr, hlp, heq⟩ |
          ⟨po, hl, hsubr, hfb, hlp, heq⟩ | ⟨hl, heq⟩
        · have h3 := heq.symm.trans hcl
          simp only [Prod.mk.injEq] at h3
          exact hnext sm (h3.2.2) hK hS hC hweak
        · have h3 := heq.symm.trans hcl
          simp only [Prod.mk.injEq] at h3
          obtain ⟨hp, hidn, hsm'⟩ := h3
          have hdom := subCategoryParents_domain r.name pn hsubr
          have hpo : po.id ∈ [pfx ++ "-K", pfx ++ "-S", pfx ++ "-C"] := by
            rcases hdom.1 with rfl | rfl | rfl
            · rw [hK] at hlp
              rw [← Option.some_inj.1 hlp]
              simp
            · rw [hS] at hlp
              rw [← Option.some_inj.1 hlp]
              simp
            · rw [hC] at hlp
              rw [← Option.some_inj.1 hlp]
              simp
          refine hnext _ hsm' ?_ ?_ ?_ ?_
          · rw [smLookup_cons_ne _ _ _ _ (fun hkn => hdom.2.1 hkn.symm)]
            exact hK
          · rw [smLookup_cons_ne _ _ _ _ (fun hkn => hdom.2.2.1 hkn.symm)]
            exact hS
          · rw [smLookup_cons_ne _ _ _ _ (fun hkn => hdom.2.2.2 hkn.symm)]
            exact hC
          · intro k e he
            rw [Part000.smLookup] at he
            by_cases hk : k = r.name
            · rw [if_pos hk] at he
              have hee : e = _ := (Option.some_inj.1 he).symm
              subst hee
              constructor
              · right
                exact hpo
              · right
                rw [← hidn]
                simp
            · rw [if_neg hk] at he
              exact hweak k e he
        · have h3 := heq.symm.trans hcl
          simp only [Prod.mk.injEq] at h3
          exact hnext sm (h3.2.2) hK hS hC hweak
        · have h3 := heq.symm.trans hcl
          simp only [Prod.mk.injEq] at h3
          exact hnext sm (h3.2.2) hK hS hC hweak

/-- Claim C1 is false as stated: with input records "Physical Education"
(framework) followed by "Theoretical Understanding", the sub-area row is
emitted with the non-empty parent identifier "PE-K", but no earlier row
(there is only the framework row, with ID number "100") carries that ID
number - the parent comes from the pre-seeded area table, not from an
emitted row. -/
theorem claim1_counterexample :
    ((Part000.cleanAndReformatCompetencies
        [⟨"Physical Education", "d"⟩, ⟨"Theoretical Understanding", ""⟩]
        "P" "100").toOption.getD []).length = 2 ∧
    (((Part000.cleanAndReformatCompetencies
        [⟨"Physical Education", "d"⟩, ⟨"Theoretical Understanding", ""⟩]
        "P" "100").toOption.getD []).getD 1 default).parentIdNumber ≠ "" ∧
    (((Part000.cleanAndReformatCompetencies
        [⟨"Physical Education", "d"⟩, ⟨"Theoretical Understanding", ""⟩]
        "P" "100").toOption.getD []).getD 0 default).idNumber
      ≠ (((Part000.cleanAndReformatCompetencies
        [⟨"Physical Education", "d"⟩, ⟨"Theoretical Understanding", ""⟩]
        "P" "100").toOption.getD []).getD 1 default).parentIdNumber := by
  refine ⟨by decide, by decide, by decide⟩

/-- Claim C1, amended: the parent identifier of every non-framework row is
either empty, or the ID number of some row at a strictly earlier output
position, or one of the three pre-seeded top-level area identifiers
prefix-K, prefix-S, prefix-C (which need not correspond to any emitted
row). -/
theorem claim1_parent_resolution (mf : Record) (rest : List Record)
    (programName fileId : String) :
    ∃ rows,
      Part000.cleanAndReformatCompetencies (mf :: rest) programName fileId
          = .ok rows ∧
      ∀ pfx, pfx = Part000.generateCode
          (if mf.name = "" then programName else mf.name) →
        ∀ i, 0 < i → i < rows.length →
          (rows.getD i default).parentIdNumber = "" ∨
          (∃ j < i,
            (rows.getD j default).idNumber = (rows.getD i default).parentIdNumber) ∨
          (rows.getD i default).parentIdNumber
              ∈ [pfx ++ "-K", pfx ++ "-S", pfx ++ "-C"] := by
  refine ⟨_, rfl, ?_⟩
  intro pfx hpfx i h0 hlen
  rw [← hpfx] at hlen ⊢
  have hinv0 : ∀ k e, Part000.smLookup k (Part000.structureMapInit pfx) = some e →
      (e.parent = "" ∨ e.parent ∈ [pfx ++ "-K", pfx ++ "-S", pfx ++ "-C"]) ∧
      (e.id ∈ [pfx ++ "-K", pfx ++ "-S", pfx ++ "-C"] ∨
        e.id ∈ ([] : List String)) := by
    intro k e he
    simp only [Part000.structureMapInit, Part000.smLookup] at he
    split_ifs at he with h1 h2 h3
    · obtain rfl := Option.some_inj.1 he
      exact ⟨Or.inl rfl, Or.inl (by simp)⟩
    · obtain rfl := Option.some_inj.1 he
      exact ⟨Or.inl rfl, Or.inl (by simp)⟩
    · obtain rfl := Option.some_inj.1 he
      exact ⟨Or.inl rfl, Or.inl (by simp)⟩
  obtain ⟨i2, rfl⟩ : ∃ i2, i = i2 + 1 := ⟨i - 1, by omega⟩
  have hlen2 : i2 < (Part000.processRows pfx rest
      (Part000.structureMapInit pfx)).length := by
    simpa using hlen
  have hpl := processRows_parent_linked pfx rest
      (Part000.structureMapInit pfx) [] rfl rfl rfl hinv0 i2 hlen2
  unfold ParentLinked at hpl
  rcases hpl with h | h | h | ⟨j, hj, hjeq⟩
  · left
    simpa [List.getD_cons_succ] using h
  · right; right
    simpa [List.getD_cons_succ] using h
  · simp at h
  · right; left
    exact ⟨j + 1, by omega, by simpa [List.getD_cons_succ] using hjeq⟩

/-- Closed instance of the amended claim C1 at a concrete input. -/
theorem claim1_witness :
    ∃ rows,
      Part000.cleanAndReformatCompetencies
          [⟨"Alpha Beta", "d"⟩, ⟨"Knowledge", ""⟩] "p" "9" = .ok rows ∧
      ∀ pfx, pfx = Part000.generateCode
          (if ("Alpha Beta" : String) = "" then "p" else "Alpha Beta") →
        ∀ i, 0 < i → i < rows.length →
          (rows.getD i default).parentIdNumber = "" ∨
          (∃ j < i,
            (rows.getD j default).idNumber = (rows.getD i default).parentIdNumber) ∨
          (rows.getD i default).parentIdNumber
              ∈ [pfx ++ "-K", pfx ++ "-S", pfx ++ "-C"] :=
  claim1_parent_resolution ⟨"Alpha Beta", "d"⟩ [⟨"Knowledge", ""⟩] "p" "9"

/-- Claim C2: in `batch_converter.js`, a record after the first whose name
matches one of the leaf patterns (a single letter K, S or C in either
case followed by digits) is parented to the corresponding default
sub-area identifier (K to Theoretical Understanding's, S to Generic
Problem Solving's, C to Autonomy & Responsibility's), and its own
identifier is the parent identifier, a hyphen, and the uppercased name. -/
theorem claim2_leaf_pattern (mf : Record) (rest : List Record)
    (programName fileId : String) (i : Nat) (hi : i < rest.length) :
    ∃ rows,
      BatchConverter.cleanAndReformatCompetencies (mf :: rest) programName fileId
          = .ok rows ∧
      rows.length = rest.length + 1 ∧
      (∀ P, P = (BatchConverter.PROGRAM_PREFIX_MAP programName).getD
          (BatchConverter.createFrameworkPrefix programName) →
        (testSingleLetterDigits 'K' 'k' (rest.getD i default).name = true →
          (rows.getD (i + 1) default).parentIdNumber
              = P ++ "-" ++ (BatchConverter.MAJOR_AREA_MAP "Theoretical Understanding").getD "" ∧
          (rows.getD (i + 1) default).idNumber
              = (rows.getD (i + 1) default).parentIdNumber
                  ++ "-" ++ jsToUpperCase (rest.getD i default).name) ∧
        (testSingleLetterDigits 'S' 's' (rest.getD i default).name = true →
          (rows.getD (i + 1) default).parentIdNumber
              = P ++ "-" ++ (BatchConverter.MAJOR_AREA_MAP "Generic Problem Solving").getD "" ∧
          (rows.getD (i + 1) default).idNumber
              = (rows.getD (i + 1) default).parentIdNumber
                  ++ "-" ++ jsToUpperCase (rest.getD i default).name) ∧
        (testSingleLetterDigits 'C' 'c' (rest.getD i default).name = true →
          (rows.getD (i + 1) default).parentIdNumber
              = P ++ "-" ++ (BatchConverter.MAJOR_AREA_MAP "Autonomy & Responsibility").getD "" ∧
          (rows.getD (i + 1) default).idNumber
              = (rows.getD (i + 1) default).parentIdNumber
                  ++ "-" ++ jsToUpperCase (rest.getD i default).name)) := by
  refine ⟨_, rfl, by simp [BC_processRows_length], ?_⟩
  rintro P rfl
  refine ⟨fun hK => ?_, fun hS => ?_, fun hC => ?_⟩
  · have := BC_processRows_K
      ((BatchConverter.PROGRAM_PREFIX_MAP programName).getD
        (BatchConverter.createFrameworkPrefix programName)) rest "" i hi hK
    simp only [List.getD_cons_succ, this, BatchConverter.childRow]
    exact ⟨rfl, by simp [String.append_assoc]⟩
  · have := BC_processRows_S
      ((BatchConverter.PROGRAM_PREFIX_MAP programName).getD
        (BatchConverter.createFrameworkPrefix programName)) rest "" i hi hS
    simp only [List.getD_cons_succ, this, BatchConverter.childRow]
    exact ⟨rfl, by simp [String.append_assoc]⟩
  · have := BC_processRows_C
      ((BatchConverter.PROGRAM_PREFIX_MAP programName).getD
        (BatchConverter.createFrameworkPrefix programName)) rest "" i hi hC
    simp only [List.getD_cons_succ, this, BatchConverter.childRow]
    exact ⟨rfl, by simp [String.append_assoc]⟩

/-- Closed instance of claim C2: in a two-record input whose second record
is named "k3", the emitted leaf row is parented to the Theoretical
Understanding identifier and carries the uppercased name. -/
theorem claim2_witness :
    ∃ rows,
      BatchConverter.cleanAndReformatCompetencies
          [⟨"Family Reform and Guidance", "d"⟩, ⟨"k3", "o"⟩]
          "Family Reform and Guidance" "2299" = .ok rows ∧
      rows.length = 1 + 1 ∧
      (∀ P, P = (BatchConverter.PROGRAM_PREFIX_MAP "Family Reform and Guidance").getD
          (BatchConverter.createFrameworkPrefix "Family Reform and Guidance") →
        (testSingleLetterDigits 'K' 'k' (([⟨"k3", "o"⟩] : List Record).getD 0 default).name = true →
          (rows.getD 1 default).parentIdNumber
              = P ++ "-" ++ (BatchConverter.MAJOR_AREA_MAP "Theoretical Understanding").getD "" ∧
          (rows.getD 1 default).idNumber
              = (rows.getD 1 default).parentIdNumber
                  ++ "-" ++ jsToUpperCase (([⟨"k3", "o"⟩] : List Record).getD 0 default).name) ∧
        (testSingleLetterDigits 'S' 's' (([⟨"k3", "o"⟩] : List Record).getD 0 default).name = true →
          (rows.getD 1 default).parentIdNumber
              = P ++ "-" ++ (BatchConverter.MAJOR_AREA_MAP "Generic Problem Solving").getD "" ∧
          (rows.getD 1 default).idNumber
              = (rows.getD 1 default).parentIdNumber
                  ++ "-" ++ jsToUpperCase (([⟨"k3", "o"⟩] : List Record).getD 0 default).name) ∧
        (testSingleLetterDigits 'C' 'c' (([⟨"k3", "o"⟩] : List Record).getD 0 default).name = true →
          (rows.getD 1 default).parentIdNumber
              = P ++ "-" ++ (BatchConverter.MAJOR_AREA_MAP "Autonomy & Responsibility").getD "" ∧
          (rows.getD 1 default).idNumber
              = (rows.getD 1 default).parentIdNumber
                  ++ "-" ++ jsToUpperCase (([⟨"k3", "o"⟩] : List Record).getD 0 default).name)) :=
  claim2_leaf_pattern ⟨"Family Reform and Guidance", "d"⟩ [⟨"k3", "o"⟩]
    "Family Reform and Guidance" "2299" 0 (by decide)

/-- Claim C3: every non-framework row carries the record's name and
description verbatim as `Short name` and `Description`, empty
`Is framework`, `Description format` 1, empty `Scale values` and
`Scale configuration`, and the five-fold competency `Taxonomy`. -/
theorem claim3_row_values (mf : Record) (rest : List Record) (programName fileId : String) :
    ∃ fw children,
      Part000.cleanAndReformatCompetencies (mf :: rest) programName fileId
          = .ok (fw :: children) ∧
      children.map (fun row => (row.shortName, row.description))
          = (rest.filter (fun r => r.name ≠ "")).map (fun r => (r.name, r.description)) ∧
      ∀ row ∈ children,
        row.isFramework = "" ∧ row.descriptionFormat = "1" ∧ row.scaleValues = "" ∧
        row.scaleConfiguration = "" ∧
        row.taxonomy = "competency,competency,competency,competency,competency" := by
  exact ⟨_, _, rfl, processRows_names _ _ _, processRows_mem _ _ _⟩

/-- Closed instance of claim C3 at a concrete input. -/
theorem claim3_witness :
    ∃ fw children,
      Part000.cleanAndReformatCompetencies
          [⟨"N", "D"⟩, ⟨"K1", "outcome"⟩] "p" "7" = .ok (fw :: children) ∧
      children.map (fun row => (row.shortName, row.description))
          = (([⟨"K1", "outcome"⟩] : List Record).filter (fun r => r.name ≠ "")).map
              (fun r => (r.name, r.description)) ∧
      ∀ row ∈ children,
        row.isFramework = "" ∧ row.descriptionFormat = "1" ∧ row.scaleValues = "" ∧
        row.scaleConfiguration = "" ∧
        row.taxonomy = "competency,competency,competency,competency,competency" :=
  claim3_row_values ⟨"N", "D"⟩ [⟨"K1", "outcome"⟩] "p" "7"
